import Mathlib

/-!
Verification of the Mil lowering pipeline (`src/parser/mel_expr.rs`, `src/types.rs`).

The development shallowly embeds the data model of `types.rs` and the two
operations of `parser/mel_expr.rs`:

* `MemoryMap::to_mel_expr` — the lowering from `UnrolledExpr` to `MelExpr`,
  embedded here as `to_mel_expr` (with the Rust `binop` helper inlined at its
  call sites, and the two list traversals of the `Let` arm split into the
  mutually recursive `lower_binds` / `lower_body`);
* `count_insts` — the 16-bit instruction counter.

Machine integers are embedded as `Nat` / `Int` with explicit reductions
modulo `2^16 = 65536` exactly where the Rust code performs `u16` arithmetic
or an `i32 -> u16` cast (`var_id as HeapPos`).  Rust panics (`expect`,
`unreachable`) are embedded as `Except` error values of type `Panic`, one
constructor per panic site.
-/

/-- Embeds `types.rs` `Value`.  The payloads (`U256`, `Vec<u8>`) are opaque to
the lowering, which never computes on them, so they are embedded as `Nat` and
`List Nat`. -/
inductive Value where
  | Int (n : Nat)
  | Bytes (b : List Nat)

/-- Embeds `types.rs` `pub type HeapPos = u16`; values kept below `2^16`. -/
abbrev HeapPos := Nat

/-- Embeds `types.rs` `pub type VarId = i32`. -/
abbrev VarId := Int

/-- Embeds `types.rs` `ExpandedBuiltIn<E>`, the generic primitive-operation
union shared by the unrolled and lowered stages.  `u16` operands are carried
as `Nat`. -/
inductive ExpandedBuiltIn (E : Type) where
  | Add (e1 e2 : E)
  | Sub (e1 e2 : E)
  | Mul (e1 e2 : E)
  | Div (e1 e2 : E)
  | Rem (e1 e2 : E)
  | Not (e : E)
  | Or (e1 e2 : E)
  | And (e1 e2 : E)
  | Xor (e1 e2 : E)
  | Vempty
  | Vlen (e : E)
  | Vref (e1 e2 : E)
  | Vpush (e1 e2 : E)
  | Vappend (e1 e2 : E)
  | Vslice (e1 e2 e3 : E)
  | Bez (n : Nat)
  | Bnz (n : Nat)
  | Jmp (n : Nat)
  | Loop (n : Nat) (e : E)
  | Load (idx : HeapPos)
  | Store (idx : HeapPos)

/-- Embeds `types.rs` `MelExpr`, the lowered representation (Rust `Box` is
transparent in the embedding). -/
inductive MelExpr where
  | Value (v : Value)
  | BuiltIn (b : ExpandedBuiltIn MelExpr)
  | Seq (v : List MelExpr)
  | Loop (n : Nat) (e : MelExpr)
  | Hash (n : Nat) (e : MelExpr)
  | Sigeok (n : Nat) (e1 e2 e3 : MelExpr)

/-- Embeds `types.rs` `UnrolledExpr`, the function-free input of the lowerer. -/
inductive UnrolledExpr where
  | Value (v : Value)
  | BuiltIn (b : ExpandedBuiltIn UnrolledExpr)
  | Set (v : VarId) (body : UnrolledExpr)
  | Var (v : VarId)
  | Let (binds : List (VarId × UnrolledExpr)) (exprs : List UnrolledExpr)
  | If (pred on_true on_false : UnrolledExpr)
  | Loop (n : Nat) (e : UnrolledExpr)
  | Hash (n : Nat) (e : UnrolledExpr)
  | Sigeok (n : Nat) (e1 e2 e3 : UnrolledExpr)

mutual
/-- Embeds `count_insts` of `mel_expr.rs` (lines 122-157).  The Rust function
returns `u16`; every `+` below is therefore a `u16` addition, embedded as a
`Nat` addition reduced modulo `65536`.  A chain of wrapping additions equals
one addition chain under a single outer `% 65536`, which is the form used
here.  The `Seq` arm embeds `v.iter().map(count_insts).reduce(|a,b| a+b)
.unwrap_or(0)` via `count_seq` / `count_seq_acc` (a left fold over the tail
starting from the head's count, `0` for an empty sequence). -/
def count_insts : MelExpr → Nat
  | .Value v => match v with
    | .Int _ => 1
    | .Bytes _ => 1
  | .BuiltIn b => count_builtin b
  | .Seq v => count_seq v
  | .Loop _ e => (1 + count_insts e) % 65536
  | .Hash _ e => (1 + count_insts e) % 65536
  | .Sigeok _ e1 e2 e3 => (1 + count_insts e1 + count_insts e2 + count_insts e3) % 65536

/-- Embeds the `MelExpr::BuiltIn` arm of `count_insts` (lines 133-155). -/
def count_builtin : ExpandedBuiltIn MelExpr → Nat
  | .Add e1 e2 => (1 + count_insts e1 + count_insts e2) % 65536
  | .Sub e1 e2 => (1 + count_insts e1 + count_insts e2) % 65536
  | .Mul e1 e2 => (1 + count_insts e1 + count_insts e2) % 65536
  | .Div e1 e2 => (1 + count_insts e1 + count_insts e2) % 65536
  | .Rem e1 e2 => (1 + count_insts e1 + count_insts e2) % 65536
  | .And e1 e2 => (1 + count_insts e1 + count_insts e2) % 65536
  | .Or e1 e2  => (1 + count_insts e1 + count_insts e2) % 65536
  | .Xor e1 e2 => (1 + count_insts e1 + count_insts e2) % 65536
  | .Not e     => (1 + count_insts e) % 65536
  | .Vref e1 e2    => (1 + count_insts e1 + count_insts e2) % 65536
  | .Vappend e1 e2 => (1 + count_insts e1 + count_insts e2) % 65536
  | .Vempty        => 1
  | .Vlen e        => (1 + count_insts e) % 65536
  | .Vpush e1 e2   => (1 + count_insts e1 + count_insts e2) % 65536
  | .Vslice e1 e2 e3 => (1 + count_insts e1 + count_insts e2 + count_insts e3) % 65536
  | .Jmp _ => 1
  | .Bez _ => 1
  | .Bnz _ => 1
  | .Loop _ e => (1 + count_insts e) % 65536
  | .Store _ => 1
  | .Load _ => 1

/-- Embeds the `MelExpr::Seq` arm of `count_insts` (line 124): `reduce` over
the mapped counts, `unwrap_or(0)` on the empty list. -/
def count_seq : List MelExpr → Nat
  | [] => 0
  | e :: es => count_seq_acc (count_insts e) es

/-- Accumulator form of `reduce(|a,b| a+b)` in `u16` arithmetic. -/
def count_seq_acc (acc : Nat) : List MelExpr → Nat
  | [] => acc
  | e :: es => count_seq_acc ((acc + count_insts e) % 65536) es
end

mutual
/-- Mathematical (unbounded) instruction count of a lowered expression: the
same structural recursion as `count_insts` but in `Nat` arithmetic with no
`u16` reduction.  Used to state how the 16-bit counter relates to the true
count. -/
def trueCount : MelExpr → Nat
  | .Value _ => 1
  | .BuiltIn b => trueCount_builtin b
  | .Seq v => trueCount_seq v
  | .Loop _ e => 1 + trueCount e
  | .Hash _ e => 1 + trueCount e
  | .Sigeok _ e1 e2 e3 => 1 + trueCount e1 + trueCount e2 + trueCount e3

def trueCount_builtin : ExpandedBuiltIn MelExpr → Nat
  | .Add e1 e2 => 1 + trueCount e1 + trueCount e2
  | .Sub e1 e2 => 1 + trueCount e1 + trueCount e2
  | .Mul e1 e2 => 1 + trueCount e1 + trueCount e2
  | .Div e1 e2 => 1 + trueCount e1 + trueCount e2
  | .Rem e1 e2 => 1 + trueCount e1 + trueCount e2
  | .And e1 e2 => 1 + trueCount e1 + trueCount e2
  | .Or e1 e2  => 1 + trueCount e1 + trueCount e2
  | .Xor e1 e2 => 1 + trueCount e1 + trueCount e2
  | .Not e     => 1 + trueCount e
  | .Vref e1 e2    => 1 + trueCount e1 + trueCount e2
  | .Vappend e1 e2 => 1 + trueCount e1 + trueCount e2
  | .Vempty        => 1
  | .Vlen e        => 1 + trueCount e
  | .Vpush e1 e2   => 1 + trueCount e1 + trueCount e2
  | .Vslice e1 e2 e3 => 1 + trueCount e1 + trueCount e2 + trueCount e3
  | .Jmp _ => 1
  | .Bez _ => 1
  | .Bnz _ => 1
  | .Loop _ e => 1 + trueCount e
  | .Store _ => 1
  | .Load _ => 1

def trueCount_seq : List MelExpr → Nat
  | [] => 0
  | e :: es => trueCount e + trueCount_seq es
end

/-- Embeds `MemoryMap`'s field `memory_store: HashMap<VarId, HeapPos>` as a
finite partial map in functional form. -/
def MemoryMap := VarId → Option HeapPos

/-- Embeds `MemoryMap::new` (an empty map). -/
def MemoryMap.new : MemoryMap := fun _ => none

/-- Embeds `self.memory_store.get(v)`. -/
def MemoryMap.get (m : MemoryMap) (v : VarId) : Option HeapPos := m v

/-- Embeds `self.memory_store.insert(var_id, loc)` (later entry wins). -/
def MemoryMap.insert (m : MemoryMap) (v : VarId) (l : HeapPos) : MemoryMap :=
  fun v2 => if v2 = v then some l else m v2

/-- Panic sites of `to_mel_expr`, embedded as typed error values: the two
`expect` calls (unbound variable on a read, line 33, and on a `set`, line 60)
and the `unreachable` arm of the built-in match (line 52). -/
inductive Panic where
  | expectVarMapping
  | expectSetMapping
  | unreachableBuiltin

/-- Embeds `let loc = var_id as HeapPos` (line 92): the Rust `i32 -> u16`
cast truncates to the low 16 bits, i.e. reduces the identifier modulo
`2^16` (Euclidean remainder, so `-1` becomes `65535`). -/
def slotOf (v : VarId) : HeapPos := (v % 65536).toNat

mutual
/-- Embeds `MemoryMap::to_mel_expr` (lines 24-118).  State (the memory map)
is threaded explicitly; the result is `Except Panic` because the Rust
function can panic.  The Rust `binop` helper (lower left operand, lower right
operand, rebuild the node) is inlined at each of its twelve call sites.
Sub-expression order follows the source exactly; in particular the `If` arm
lowers the true branch, then the false branch, and lowers the predicate last
(inside the `vec!` constructor), and the `Set` arm lowers the body before
looking the variable up. -/
def to_mel_expr (m : MemoryMap) : UnrolledExpr → Except Panic (MelExpr × MemoryMap)
  | .Value v => match v with
    | .Int n => .ok (.Value (.Int n), m)
    | .Bytes b => .ok (.Value (.Bytes b), m)
  | .Var v => match m.get v with
    | some loc => .ok (.BuiltIn (.Load loc), m)
    | none => .error .expectVarMapping
  | .BuiltIn b => match b with
    | .Vempty => .ok (.BuiltIn .Vempty, m)
    | .Not e => do
        let (e1, m1) ← to_mel_expr m e
        .ok (.BuiltIn (.Not e1), m1)
    | .Vlen e => do
        let (e1, m1) ← to_mel_expr m e
        .ok (.BuiltIn (.Vlen e1), m1)
    | .Add e1 e2 => do
        let (a, m1) ← to_mel_expr m e1
        let (b, m2) ← to_mel_expr m1 e2
        .ok (.BuiltIn (.Add a b), m2)
    | .Sub e1 e2 => do
        let (a, m1) ← to_mel_expr m e1
        let (b, m2) ← to_mel_expr m1 e2
        .ok (.BuiltIn (.Sub a b), m2)
    | .Mul e1 e2 => do
        let (a, m1) ← to_mel_expr m e1
        let (b, m2) ← to_mel_expr m1 e2
        .ok (.BuiltIn (.Mul a b), m2)
    | .Div e1 e2 => do
        let (a, m1) ← to_mel_expr m e1
        let (b, m2) ← to_mel_expr m1 e2
        .ok (.BuiltIn (.Div a b), m2)
    | .Rem e1 e2 => do
        let (a, m1) ← to_mel_expr m e1
        let (b, m2) ← to_mel_expr m1 e2
        .ok (.BuiltIn (.Rem a b), m2)
    | .And e1 e2 => do
        let (a, m1) ← to_mel_expr m e1
        let (b, m2) ← to_mel_expr m1 e2
        .ok (.BuiltIn (.And a b), m2)
    | .Or e1 e2 => do
        let (a, m1) ← to_mel_expr m e1
        let (b, m2) ← to_mel_expr m1 e2
        .ok (.BuiltIn (.Or a b), m2)
    | .Xor e1 e2 => do
        let (a, m1) ← to_mel_expr m e1
        let (b, m2) ← to_mel_expr m1 e2
        .ok (.BuiltIn (.Xor a b), m2)
    | .Vpush e1 e2 => do
        let (a, m1) ← to_mel_expr m e1
        let (b, m2) ← to_mel_expr m1 e2
        .ok (.BuiltIn (.Vpush a b), m2)
    | .Vappend e1 e2 => do
        let (a, m1) ← to_mel_expr m e1
        let (b, m2) ← to_mel_expr m1 e2
        .ok (.BuiltIn (.Vappend a b), m2)
    | .Vref e1 e2 => do
        let (a, m1) ← to_mel_expr m e1
        let (b, m2) ← to_mel_expr m1 e2
        .ok (.BuiltIn (.Vref a b), m2)
    | .Vslice _ _ _ => .error .unreachableBuiltin
    | .Bez _ => .error .unreachableBuiltin
    | .Bnz _ => .error .unreachableBuiltin
    | .Jmp _ => .error .unreachableBuiltin
    | .Loop _ _ => .error .unreachableBuiltin
    | .Load _ => .error .unreachableBuiltin
    | .Store _ => .error .unreachableBuiltin
  | .Set var_id body => do
      let (mel_body, m1) ← to_mel_expr m body
      match m1.get var_id with
      | some loc => .ok (.Seq [mel_body, .BuiltIn (.Store loc)], m1)
      | none => .error .expectSetMapping
  | .If pred on_true on_false => do
      let (mel_true, m1) ← to_mel_expr m on_true
      let (mel_false, m2) ← to_mel_expr m1 on_false
      let (mel_pred, m3) ← to_mel_expr m2 pred
      .ok (.Seq [mel_pred,
                 .BuiltIn (.Bez ((count_insts mel_true + 1) % 65536)),
                 mel_true,
                 .BuiltIn (.Jmp (count_insts mel_false)),
                 mel_false], m3)
  | .Let binds exprs => do
      let (mel_binds, m1) ← lower_binds m binds
      let (mel_exprs, m2) ← lower_body m1 exprs
      .ok (.Seq (mel_binds ++ mel_exprs), m2)
  | .Loop n e => do
      let (e1, m1) ← to_mel_expr m e
      .ok (.Loop n e1, m1)
  | .Hash n e => do
      let (e1, m1) ← to_mel_expr m e
      .ok (.Hash n e1, m1)
  | .Sigeok n e1 e2 e3 => do
      let (a, m1) ← to_mel_expr m e1
      let (b, m2) ← to_mel_expr m1 e2
      let (c, m3) ← to_mel_expr m2 e3
      .ok (.Sigeok n a b c, m3)

/-- Embeds the `binds.into_iter().for_each(..)` loop of the `Let` arm
(lines 84-102): per binding, compute the slot (`var_id as HeapPos`), insert
it into the map, lower the binding expression under the extended map, and
emit the lowered expression followed by a `Store` at the slot. -/
def lower_binds (m : MemoryMap) : List (VarId × UnrolledExpr) → Except Panic (List MelExpr × MemoryMap)
  | [] => .ok ([], m)
  | (var_id, expr) :: rest => do
      let loc := slotOf var_id
      let m1 := m.insert var_id loc
      let (mel_expr, m2) ← to_mel_expr m1 expr
      let (mel_rest, m3) ← lower_binds m2 rest
      .ok (mel_expr :: .BuiltIn (.Store loc) :: mel_rest, m3)

/-- Embeds the `exprs.into_iter().map(|e| self.to_mel_expr(e))` traversal of
the `Let` body (line 105): lower each body expression in order, keeping every
result. -/
def lower_body (m : MemoryMap) : List UnrolledExpr → Except Panic (List MelExpr × MemoryMap)
  | [] => .ok ([], m)
  | e :: es => do
      let (e1, m1) ← to_mel_expr m e
      let (es1, m2) ← lower_body m1 es
      .ok (e1 :: es1, m2)
end

/-- Modelled from the spec: one primitive machine Instruction, "one opcode
tag + operand bytes per primitive instruction" (spec section 2 and section
4.4).  The Encoder itself (`compiler.rs`) is not under `src/`; only its
caller (`main.rs`, `compile_onto`) is, so this type follows the spec's
description of the instruction stream. -/
inductive Instruction where
  | PushV (v : Value)
  | OpAdd | OpSub | OpMul | OpDiv | OpRem
  | OpNot | OpOr | OpAnd | OpXor
  | OpVempty | OpVlen | OpVref | OpVpush | OpVappend | OpVslice
  | OpBez (n : Nat)
  | OpBnz (n : Nat)
  | OpJmp (n : Nat)
  | OpLoop (n : Nat)
  | OpHash (n : Nat)
  | OpSigeok (n : Nat)
  | OpLoad (idx : HeapPos)
  | OpStore (idx : HeapPos)

mutual
/-- Modelled from the spec: the Encoder's flattening of a lowered expression
into its emitted instruction sequence (`compiler.rs` is not under `src/`).
Spec section 4.4: each primitive instruction occupies one opcode tag plus its
operand; a literal is one instruction carrying a payload.  Operand
sub-expressions are emitted before their operator's opcode (stack
discipline); a `loop`/repeat instruction precedes its embedded body (spec
section 4.5: the interpreter "re-enters its embedded body"); `hash` and
`sign-check` follow their lowered sub-programs.  A `Seq` node emits exactly
the concatenation of its children's emissions and no opcode of its own. -/
def encode : MelExpr → List Instruction
  | .Value v => [.PushV v]
  | .BuiltIn b => encode_builtin b
  | .Seq v => encode_seq v
  | .Loop n e => .OpLoop n :: encode e
  | .Hash n e => encode e ++ [.OpHash n]
  | .Sigeok n e1 e2 e3 => encode e1 ++ encode e2 ++ encode e3 ++ [.OpSigeok n]

def encode_builtin : ExpandedBuiltIn MelExpr → List Instruction
  | .Add e1 e2 => encode e1 ++ encode e2 ++ [.OpAdd]
  | .Sub e1 e2 => encode e1 ++ encode e2 ++ [.OpSub]
  | .Mul e1 e2 => encode e1 ++ encode e2 ++ [.OpMul]
  | .Div e1 e2 => encode e1 ++ encode e2 ++ [.OpDiv]
  | .Rem e1 e2 => encode e1 ++ encode e2 ++ [.OpRem]
  | .And e1 e2 => encode e1 ++ encode e2 ++ [.OpAnd]
  | .Or e1 e2  => encode e1 ++ encode e2 ++ [.OpOr]
  | .Xor e1 e2 => encode e1 ++ encode e2 ++ [.OpXor]
  | .Not e     => encode e ++ [.OpNot]
  | .Vref e1 e2    => encode e1 ++ encode e2 ++ [.OpVref]
  | .Vappend e1 e2 => encode e1 ++ encode e2 ++ [.OpVappend]
  | .Vempty        => [.OpVempty]
  | .Vlen e        => encode e ++ [.OpVlen]
  | .Vpush e1 e2   => encode e1 ++ encode e2 ++ [.OpVpush]
  | .Vslice e1 e2 e3 => encode e1 ++ encode e2 ++ encode e3 ++ [.OpVslice]
  | .Jmp n => [.OpJmp n]
  | .Bez n => [.OpBez n]
  | .Bnz n => [.OpBnz n]
  | .Loop n e => .OpLoop n :: encode e
  | .Store idx => [.OpStore idx]
  | .Load idx => [.OpLoad idx]

def encode_seq : List MelExpr → List Instruction
  | [] => []
  | e :: es => encode e ++ encode_seq es
end

/-- Canonical maps: every recorded slot is the one the allocator computes
from the identifier (`var_id as HeapPos`).  The empty map is canonical and,
as proved below, lowering preserves canonicity, so every map arising in a
lowering run that starts from `MemoryMap.new` is canonical. -/
def Canonical (m : MemoryMap) : Prop :=
  ∀ v l, m v = some l → l = slotOf v

/-- Evolution relation between memory maps across a lowering step: each
entry is either untouched or (re)written to the canonical slot of its key.
This is exactly what `insert(var_id, var_id as HeapPos)` can do. -/
def MapEvolves (m m2 : MemoryMap) : Prop :=
  ∀ v, m2 v = m v ∨ m2 v = some (slotOf v)

/-- Propagated form of `MapEvolves` through an `Except` lowering result. -/
def EvolvesE {α : Type} (m : MemoryMap) (x : Except Panic (α × MemoryMap)) : Prop :=
  ∀ r m2, x = .ok (r, m2) → MapEvolves m m2

/-- Observation helper: the lowered expression produced by a whole lowering
run started, as in `main.rs`, from `MemoryMap::new()`. -/
def lowerResult (e : UnrolledExpr) : Except Panic MelExpr :=
  (to_mel_expr MemoryMap.new e).map Prod.fst

/-- Observation helper: the final memory-map entry of identifier `v` after a
whole lowering run started from `MemoryMap.new` (`none` if the run panicked,
`some none` if the run succeeded with `v` unbound). -/
def lowerMapAt (e : UnrolledExpr) (v : VarId) : Option (Option HeapPos) :=
  (to_mel_expr MemoryMap.new e).toOption.map (fun p => p.2 v)

mutual
/-- The 16-bit counter computes the true instruction count reduced modulo
`2^16`: the wrapping `u16` additions commute with one outer reduction. -/
theorem count_insts_eq (e : MelExpr) : count_insts e = trueCount e % 65536 :=
  match e with
  | .Value v => by cases v <;> rfl
  | .BuiltIn b => count_builtin_eq b
  | .Seq v => count_seq_eq v
  | .Loop n e => by
      show (1 + count_insts e) % 65536 = (1 + trueCount e) % 65536
      rw [count_insts_eq e]; omega
  | .Hash n e => by
      show (1 + count_insts e) % 65536 = (1 + trueCount e) % 65536
      rw [count_insts_eq e]; omega
  | .Sigeok n e1 e2 e3 => by
      show (1 + count_insts e1 + count_insts e2 + count_insts e3) % 65536
          = (1 + trueCount e1 + trueCount e2 + trueCount e3) % 65536
      rw [count_insts_eq e1, count_insts_eq e2, count_insts_eq e3]; omega

theorem count_builtin_eq (b : ExpandedBuiltIn MelExpr) : count_builtin b = trueCount_builtin b % 65536 :=
  match b with
  | .Add e1 e2 => by
      show (1 + count_insts e1 + count_insts e2) % 65536 = (1 + trueCount e1 + trueCount e2) % 65536
      rw [count_insts_eq e1, count_insts_eq e2]; omega
  | .Sub e1 e2 => by
      show (1 + count_insts e1 + count_insts e2) % 65536 = (1 + trueCount e1 + trueCount e2) % 65536
      rw [count_insts_eq e1, count_insts_eq e2]; omega
  | .Mul e1 e2 => by
      show (1 + count_insts e1 + count_insts e2) % 65536 = (1 + trueCount e1 + trueCount e2) % 65536
      rw [count_insts_eq e1, count_insts_eq e2]; omega
  | .Div e1 e2 => by
      show (1 + count_insts e1 + count_insts e2) % 65536 = (1 + trueCount e1 + trueCount e2) % 65536
      rw [count_insts_eq e1, count_insts_eq e2]; omega
  | .Rem e1 e2 => by
      show (1 + count_insts e1 + count_insts e2) % 65536 = (1 + trueCount e1 + trueCount e2) % 65536
      rw [count_insts_eq e1, count_insts_eq e2]; omega
  | .And e1 e2 => by
      show (1 + count_insts e1 + count_insts e2) % 65536 = (1 + trueCount e1 + trueCount e2) % 65536
      rw [count_insts_eq e1, count_insts_eq e2]; omega
  | .Or e1 e2 => by
      show (1 + count_insts e1 + count_insts e2) % 65536 = (1 + trueCount e1 + trueCount e2) % 65536
      rw [count_insts_eq e1, count_insts_eq e2]; omega
  | .Xor e1 e2 => by
      show (1 + count_insts e1 + count_insts e2) % 65536 = (1 + trueCount e1 + trueCount e2) % 65536
      rw [count_insts_eq e1, count_insts_eq e2]; omega
  | .Not e => by
      show (1 + count_insts e) % 65536 = (1 + trueCount e) % 65536
      rw [count_insts_eq e]; omega
  | .Vref e1 e2 => by
      show (1 + count_insts e1 + count_insts e2) % 65536 = (1 + trueCount e1 + trueCount e2) % 65536
      rw [count_insts_eq e1, count_insts_eq e2]; omega
  | .Vappend e1 e2 => by
      show (1 + count_insts e1 + count_insts e2) % 65536 = (1 + trueCount e1 + trueCount e2) % 65536
      rw [count_insts_eq e1, count_insts_eq e2]; omega
  | .Vempty => rfl
  | .Vlen e => by
      show (1 + count_insts e) % 65536 = (1 + trueCount e) % 65536
      rw [count_insts_eq e]; omega
  | .Vpush e1 e2 => by
      show (1 + count_insts e1 + count_insts e2) % 65536 = (1 + trueCount e1 + trueCount e2) % 65536
      rw [count_insts_eq e1, count_insts_eq e2]; omega
  | .Vslice e1 e2 e3 => by
      show (1 + count_insts e1 + count_insts e2 + count_insts e3) % 65536
          = (1 + trueCount e1 + trueCount e2 + trueCount e3) % 65536
      rw [count_insts_eq e1, count_insts_eq e2, count_insts_eq e3]; omega
  | .Jmp n => rfl
  | .Bez n => rfl
  | .Bnz n => rfl
  | .Loop n e => by
      show (1 + count_insts e) % 65536 = (1 + trueCount e) % 65536
      rw [count_insts_eq e]; omega
  | .Store idx => rfl
  | .Load idx => rfl

theorem count_seq_eq (v : List MelExpr) : count_seq v = trueCount_seq v % 65536 :=
  match v with
  | [] => rfl
  | e :: es => by
      show count_seq_acc (count_insts e) es = (trueCount e + trueCount_seq es) % 65536
      rw [count_seq_acc_eq (count_insts e) es (by rw [count_insts_eq e]; omega),
          count_insts_eq e]
      omega

theorem count_seq_acc_eq (acc : Nat) (v : List MelExpr) (h : acc < 65536) :
    count_seq_acc acc v = (acc + trueCount_seq v) % 65536 :=
  match v with
  | [] => by
      show acc = (acc + 0) % 65536
      omega
  | e :: es => by
      show count_seq_acc ((acc + count_insts e) % 65536) es = (acc + (trueCount e + trueCount_seq es)) % 65536
      rw [count_seq_acc_eq ((acc + count_insts e) % 65536) es (by omega), count_insts_eq e]
      omega
end

/-- The counter's result always fits in 16 bits. -/
theorem count_insts_lt (e : MelExpr) : count_insts e < 65536 := by
  rw [count_insts_eq]; omega

mutual
/-- The true instruction count of a node equals the length of the
instruction sequence the (spec-modelled) Encoder emits for it. -/
theorem trueCount_encode (e : MelExpr) : trueCount e = (encode e).length :=
  match e with
  | .Value v => rfl
  | .BuiltIn b => trueCount_builtin_encode b
  | .Seq v => trueCount_seq_encode v
  | .Loop n e => by
      show 1 + trueCount e = (Instruction.OpLoop n :: encode e).length
      rw [trueCount_encode e]; simp [Nat.add_comm]
  | .Hash n e => by
      show 1 + trueCount e = (encode e ++ [Instruction.OpHash n]).length
      rw [trueCount_encode e]; simp [Nat.add_comm]
  | .Sigeok n e1 e2 e3 => by
      show 1 + trueCount e1 + trueCount e2 + trueCount e3
          = (encode e1 ++ encode e2 ++ encode e3 ++ [Instruction.OpSigeok n]).length
      rw [trueCount_encode e1, trueCount_encode e2, trueCount_encode e3]
      simp; omega

theorem trueCount_builtin_encode (b : ExpandedBuiltIn MelExpr) :
    trueCount_builtin b = (encode_builtin b).length :=
  match b with
  | .Add e1 e2 => by
      show 1 + trueCount e1 + trueCount e2 = (encode e1 ++ encode e2 ++ [Instruction.OpAdd]).length
      rw [trueCount_encode e1, trueCount_encode e2]; simp; omega
  | .Sub e1 e2 => by
      show 1 + trueCount e1 + trueCount e2 = (encode e1 ++ encode e2 ++ [Instruction.OpSub]).length
      rw [trueCount_encode e1, trueCount_encode e2]; simp; omega
  | .Mul e1 e2 => by
      show 1 + trueCount e1 + trueCount e2 = (encode e1 ++ encode e2 ++ [Instruction.OpMul]).length
      rw [trueCount_encode e1, trueCount_encode e2]; simp; omega
  | .Div e1 e2 => by
      show 1 + trueCount e1 + trueCount e2 = (encode e1 ++ encode e2 ++ [Instruction.OpDiv]).length
      rw [trueCount_encode e1, trueCount_encode e2]; simp; omega
  | .Rem e1 e2 => by
      show 1 + trueCount e1 + trueCount e2 = (encode e1 ++ encode e2 ++ [Instruction.OpRem]).length
      rw [trueCount_encode e1, trueCount_encode e2]; simp; omega
  | .And e1 e2 => by
      show 1 + trueCount e1 + trueCount e2 = (encode e1 ++ encode e2 ++ [Instruction.OpAnd]).length
      rw [trueCount_encode e1, trueCount_encode e2]; simp; omega
  | .Or e1 e2 => by
      show 1 + trueCount e1 + trueCount e2 = (encode e1 ++ encode e2 ++ [Instruction.OpOr]).length
      rw [trueCount_encode e1, trueCount_encode e2]; simp; omega
  | .Xor e1 e2 => by
      show 1 + trueCount e1 + trueCount e2 = (encode e1 ++ encode e2 ++ [Instruction.OpXor]).length
      rw [trueCount_encode e1, trueCount_encode e2]; simp; omega
  | .Not e => by
      show 1 + trueCount e = (encode e ++ [Instruction.OpNot]).length
      rw [trueCount_encode e]; simp [Nat.add_comm]
  | .Vref e1 e2 => by
      show 1 + trueCount e1 + trueCount e2 = (encode e1 ++ encode e2 ++ [Instruction.OpVref]).length
      rw [trueCount_encode e1, trueCount_encode e2]; simp; omega
  | .Vappend e1 e2 => by
      show 1 + trueCount e1 + trueCount e2 = (encode e1 ++ encode e2 ++ [Instruction.OpVappend]).length
      rw [trueCount_encode e1, trueCount_encode e2]; simp; omega
  | .Vempty => rfl
  | .Vlen e => by
      show 1 + trueCount e = (encode e ++ [Instruction.OpVlen]).length
      rw [trueCount_encode e]; simp [Nat.add_comm]
  | .Vpush e1 e2 => by
      show 1 + trueCount e1 + trueCount e2 = (encode e1 ++ encode e2 ++ [Instruction.OpVpush]).length
      rw [trueCount_encode e1, trueCount_encode e2]; simp; omega
  | .Vslice e1 e2 e3 => by
      show 1 + trueCount e1 + trueCount e2 + trueCount e3
          = (encode e1 ++ encode e2 ++ encode e3 ++ [Instruction.OpVslice]).length
      rw [trueCount_encode e1, trueCount_encode e2, trueCount_encode e3]; simp; omega
  | .Jmp n => rfl
  | .Bez n => rfl
  | .Bnz n => rfl
  | .Loop n e => by
      show 1 + trueCount e = (Instruction.OpLoop n :: encode e).length
      rw [trueCount_encode e]; simp [Nat.add_comm]
  | .Store idx => rfl
  | .Load idx => rfl

theorem trueCount_seq_encode (v : List MelExpr) : trueCount_seq v = (encode_seq v).length :=
  match v with
  | [] => rfl
  | e :: es => by
      show trueCount e + trueCount_seq es = (encode e ++ encode_seq es).length
      rw [trueCount_encode e, trueCount_seq_encode es]; simp
end

/-- Inversion of a successful `Except` bind. -/
theorem except_bind_ok {α β : Type} {x : Except Panic α} {f : α → Except Panic β} {b : β}
    (h : x >>= f = .ok b) : ∃ a, x = .ok a ∧ f a = .ok b := by
  cases x with
  | error p => exact absurd (by simpa only [Bind.bind, Except.bind] using h) (by simp)
  | ok a => exact ⟨a, rfl, by simpa only [Bind.bind, Except.bind] using h⟩

theorem mapEvolves_refl (m : MemoryMap) : MapEvolves m m := fun _ => Or.inl rfl

theorem mapEvolves_trans {m1 m2 m3 : MemoryMap}
    (h1 : MapEvolves m1 m2) (h2 : MapEvolves m2 m3) : MapEvolves m1 m3 := by
  intro v
  rcases h2 v with h | h
  · rw [h]; exact h1 v
  · exact Or.inr h

/-- Inserting the canonical slot of a key is an evolution step. -/
theorem mapEvolves_insert (m : MemoryMap) (v : VarId) :
    MapEvolves m (m.insert v (slotOf v)) := by
  intro w
  by_cases hw : w = v
  · subst hw; right; simp [MemoryMap.insert]
  · left; simp [MemoryMap.insert, hw]

theorem evolvesE_bind {α β : Type} {m : MemoryMap} {x : Except Panic (α × MemoryMap)}
    {f : α × MemoryMap → Except Panic (β × MemoryMap)}
    (hx : EvolvesE m x) (hf : ∀ p, EvolvesE p.2 (f p)) : EvolvesE m (x >>= f) := by
  intro r m2 h
  obtain ⟨p, hp, hfp⟩ := except_bind_ok h
  exact mapEvolves_trans (hx p.1 p.2 (by rw [hp])) (hf p r m2 hfp)

theorem evolvesE_ok {α : Type} (m : MemoryMap) (a : α) : EvolvesE m (.ok (a, m)) := by
  intro r m2 h
  simp only [Except.ok.injEq, Prod.mk.injEq] at h
  rw [← h.2]
  exact mapEvolves_refl m

theorem evolvesE_error {α : Type} (m : MemoryMap) (p : Panic) :
    EvolvesE (α := α) m (.error p) := by
  intro r m2 h
  simp at h

/-- Pre-composition of an evolution step with an `Except` evolution. -/
theorem evolvesE_mono {α : Type} {m m1 : MemoryMap} {x : Except Panic (α × MemoryMap)}
    (hm : MapEvolves m m1) (hx : EvolvesE m1 x) : EvolvesE m x :=
  fun r m2 h => mapEvolves_trans hm (hx r m2 h)

mutual
/-- Lowering only evolves the memory map by writing canonical slots: every
entry of the output map is either the input map's entry for that key or the
slot the allocator computes from the key (`var_id as HeapPos`). -/
theorem tme_evolves (m : MemoryMap) (e : UnrolledExpr) : EvolvesE m (to_mel_expr m e) :=
  match e with
  | .Value v => by
      cases v <;> (simp only [to_mel_expr]; exact evolvesE_ok m _)
  | .Var v => by
      simp only [to_mel_expr]
      cases hv : m.get v with
      | some loc => exact evolvesE_ok m _
      | none => exact evolvesE_error m _
  | .BuiltIn b =>
    match b with
    | .Vempty => by simp only [to_mel_expr]; exact evolvesE_ok m _
    | .Not e => by
        simp only [to_mel_expr]
        refine evolvesE_bind (tme_evolves m e) ?_
        rintro ⟨a, m1⟩
        exact evolvesE_ok m1 _
    | .Vlen e => by
        simp only [to_mel_expr]
        refine evolvesE_bind (tme_evolves m e) ?_
        rintro ⟨a, m1⟩
        exact evolvesE_ok m1 _
    | .Add e1 e2 => by
        simp only [to_mel_expr]
        refine evolvesE_bind (tme_evolves m e1) ?_
        rintro ⟨a, m1⟩
        refine evolvesE_bind (tme_evolves m1 e2) ?_
        rintro ⟨c, m2⟩
        exact evolvesE_ok m2 _
    | .Sub e1 e2 => by
        simp only [to_mel_expr]
        refine evolvesE_bind (tme_evolves m e1) ?_
        rintro ⟨a, m1⟩
        refine evolvesE_bind (tme_evolves m1 e2) ?_
        rintro ⟨c, m2⟩
        exact evolvesE_ok m2 _
    | .Mul e1 e2 => by
        simp only [to_mel_expr]
        refine evolvesE_bind (tme_evolves m e1) ?_
        rintro ⟨a, m1⟩
        refine evolvesE_bind (tme_evolves m1 e2) ?_
        rintro ⟨c, m2⟩
        exact evolvesE_ok m2 _
    | .Div e1 e2 => by
        simp only [to_mel_expr]
        refine evolvesE_bind (tme_evolves m e1) ?_
        rintro ⟨a, m1⟩
        refine evolvesE_bind (tme_evolves m1 e2) ?_
        rintro ⟨c, m2⟩
        exact evolvesE_ok m2 _
    | .Rem e1 e2 => by
        simp only [to_mel_expr]
        refine evolvesE_bind (tme_evolves m e1) ?_
        rintro ⟨a, m1⟩
        refine evolvesE_bind (tme_evolves m1 e2) ?_
        rintro ⟨c, m2⟩
        exact evolvesE_ok m2 _
    | .And e1 e2 => by
        simp only [to_mel_expr]
        refine evolvesE_bind (tme_evolves m e1) ?_
        rintro ⟨a, m1⟩
        refine evolvesE_bind (tme_evolves m1 e2) ?_
        rintro ⟨c, m2⟩
        exact evolvesE_ok m2 _
    | .Or e1 e2 => by
        simp only [to_mel_expr]
        refine evolvesE_bind (tme_evolves m e1) ?_
        rintro ⟨a, m1⟩
        refine evolvesE_bind (tme_evolves m1 e2) ?_
        rintro ⟨c, m2⟩
        exact evolvesE_ok m2 _
    | .Xor e1 e2 => by
        simp only [to_mel_expr]
        refine evolvesE_bind (tme_evolves m e1) ?_
        rintro ⟨a, m1⟩
        refine evolvesE_bind (tme_evolves m1 e2) ?_
        rintro ⟨c, m2⟩
        exact evolvesE_ok m2 _
    | .Vpush e1 e2 => by
        simp only [to_mel_expr]
        refine evolvesE_bind (tme_evolves m e1) ?_
        rintro ⟨a, m1⟩
        refine evolvesE_bind (tme_evolves m1 e2) ?_
        rintro ⟨c, m2⟩
        exact evolvesE_ok m2 _
    | .Vappend e1 e2 => by
        simp only [to_mel_expr]
        refine evolvesE_bind (tme_evolves m e1) ?_
        rintro ⟨a, m1⟩
        refine evolvesE_bind (tme_evolves m1 e2) ?_
        rintro ⟨c, m2⟩
        exact evolvesE_ok m2 _
    | .Vref e1 e2 => by
        simp only [to_mel_expr]
        refine evolvesE_bind (tme_evolves m e1) ?_
        rintro ⟨a, m1⟩
        refine evolvesE_bind (tme_evolves m1 e2) ?_
        rintro ⟨c, m2⟩
        exact evolvesE_ok m2 _
    | .Vslice _ _ _ => by simp only [to_mel_expr]; exact evolvesE_error m _
    | .Bez _ => by simp only [to_mel_expr]; exact evolvesE_error m _
    | .Bnz _ => by simp only [to_mel_expr]; exact evolvesE_error m _
    | .Jmp _ => by simp only [to_mel_expr]; exact evolvesE_error m _
    | .Loop _ _ => by simp only [to_mel_expr]; exact evolvesE_error m _
    | .Load _ => by simp only [to_mel_expr]; exact evolvesE_error m _
    | .Store _ => by simp only [to_mel_expr]; exact evolvesE_error m _
  | .Set var_id body => by
      simp only [to_mel_expr]
      refine evolvesE_bind (tme_evolves m body) ?_
      rintro ⟨a, m1⟩
      cases hv : m1.get var_id with
      | some loc => exact evolvesE_ok m1 _
      | none => exact evolvesE_error m1 _
  | .If pred on_true on_false => by
      simp only [to_mel_expr]
      refine evolvesE_bind (tme_evolves m on_true) ?_
      rintro ⟨a, m1⟩
      refine evolvesE_bind (tme_evolves m1 on_false) ?_
      rintro ⟨c, m2⟩
      refine evolvesE_bind (tme_evolves m2 pred) ?_
      rintro ⟨p, m3⟩
      exact evolvesE_ok m3 _
  | .Let binds exprs => by
      simp only [to_mel_expr]
      refine evolvesE_bind (lb_evolves m binds) ?_
      rintro ⟨bs, m1⟩
      refine evolvesE_bind (lbody_evolves m1 exprs) ?_
      rintro ⟨es, m2⟩
      exact evolvesE_ok m2 _
  | .Loop n e => by
      simp only [to_mel_expr]
      refine evolvesE_bind (tme_evolves m e) ?_
      rintro ⟨a, m1⟩
      exact evolvesE_ok m1 _
  | .Hash n e => by
      simp only [to_mel_expr]
      refine evolvesE_bind (tme_evolves m e) ?_
      rintro ⟨a, m1⟩
      exact evolvesE_ok m1 _
  | .Sigeok n e1 e2 e3 => by
      simp only [to_mel_expr]
      refine evolvesE_bind (tme_evolves m e1) ?_
      rintro ⟨a, m1⟩
      refine evolvesE_bind (tme_evolves m1 e2) ?_
      rintro ⟨c, m2⟩
      refine evolvesE_bind (tme_evolves m2 e3) ?_
      rintro ⟨d, m3⟩
      exact evolvesE_ok m3 _

/-- Binding lowering only evolves the map by canonical-slot writes. -/
theorem lb_evolves (m : MemoryMap) (bs : List (VarId × UnrolledExpr)) :
    EvolvesE m (lower_binds m bs) :=
  match bs with
  | [] => by simp only [lower_binds]; exact evolvesE_ok m _
  | (var_id, expr) :: rest => by
      simp only [lower_binds]
      refine evolvesE_mono (mapEvolves_insert m var_id) ?_
      refine evolvesE_bind (tme_evolves _ expr) ?_
      rintro ⟨a, m2⟩
      refine evolvesE_bind (lb_evolves m2 rest) ?_
      rintro ⟨bs2, m3⟩
      exact evolvesE_ok m3 _

/-- Body lowering only evolves the map by canonical-slot writes. -/
theorem lbody_evolves (m : MemoryMap) (es : List UnrolledExpr) :
    EvolvesE m (lower_body m es) :=
  match es with
  | [] => by simp only [lower_body]; exact evolvesE_ok m _
  | e :: rest => by
      simp only [lower_body]
      refine evolvesE_bind (tme_evolves m e) ?_
      rintro ⟨a, m1⟩
      refine evolvesE_bind (lbody_evolves m1 rest) ?_
      rintro ⟨es2, m2⟩
      exact evolvesE_ok m2 _
end

/-- The empty map (start of every lowering run) is canonical. -/
theorem canonical_new : Canonical MemoryMap.new := by
  intro v l h
  simp [MemoryMap.new] at h

/-- Map evolution preserves canonicity. -/
theorem mapEvolves_canonical {m m2 : MemoryMap}
    (hC : Canonical m) (hev : MapEvolves m m2) : Canonical m2 := by
  intro v l h
  rcases hev v with he | he
  · exact hC v l (he ▸ h)
  · rw [he] at h
    exact (Option.some.injEq _ _ ▸ h).symm

/-- Under canonicity, map evolution never changes an existing entry. -/
theorem mapEvolves_preserves_entry {m m2 : MemoryMap} {v : VarId} {l : HeapPos}
    (hC : Canonical m) (hev : MapEvolves m m2) (h : m v = some l) : m2 v = some l := by
  rcases hev v with he | he
  · rw [he, h]
  · rw [he, hC v l h]

/-- Sums of 16-bit counts and of true counts agree modulo `2^16`. -/
theorem sum_counts_mod (es : List MelExpr) :
    (es.map count_insts).sum % 65536 = trueCount_seq es % 65536 := by
  induction es with
  | nil => rfl
  | cons e es ih =>
      have he := count_insts_eq e
      simp only [List.map_cons, List.sum_cons]
      show (count_insts e + (es.map count_insts).sum) % 65536
          = (trueCount e + trueCount_seq es) % 65536
      omega

/-- C1: for every unrolled if-expression, lowering produces exactly the
sequence [lowered predicate] [branch-if-zero by `count(true-branch)+1`]
[lowered true branch] [jump by `count(false-branch)`] [lowered false
branch].  Offsets are computed by the 16-bit counter, so `+1` is a `u16`
addition (reduced modulo `2^16`; see the C10 theorem for the width).  The
hypotheses record the lowering of the three children in the source's
evaluation order (true branch, false branch, then predicate). -/
theorem C1_if_lowering_shape
    (m m1 m2 m3 : MemoryMap) (pred on_true on_false : UnrolledExpr)
    (mel_pred mel_true mel_false : MelExpr)
    (h1 : to_mel_expr m on_true = .ok (mel_true, m1))
    (h2 : to_mel_expr m1 on_false = .ok (mel_false, m2))
    (h3 : to_mel_expr m2 pred = .ok (mel_pred, m3)) :
    to_mel_expr m (.If pred on_true on_false) =
      .ok (.Seq [mel_pred,
                 .BuiltIn (.Bez ((count_insts mel_true + 1) % 65536)),
                 mel_true,
                 .BuiltIn (.Jmp (count_insts mel_false)),
                 mel_false], m3) := by
  simp only [to_mel_expr, h1, h2, h3, Bind.bind, Except.bind]

/-- Witness for C1 at a concrete if-expression: `(if 1 then 2 else 3)`
lowers to the canonical five-element pattern with offsets 2 and 1. -/
theorem C1_if_lowering_shape_witness :
    to_mel_expr MemoryMap.new (.If (.Value (.Int 1)) (.Value (.Int 2)) (.Value (.Int 3))) =
      .ok (.Seq [.Value (.Int 1), .BuiltIn (.Bez 2), .Value (.Int 2),
                 .BuiltIn (.Jmp 1), .Value (.Int 3)], MemoryMap.new) :=
  C1_if_lowering_shape MemoryMap.new MemoryMap.new MemoryMap.new MemoryMap.new
    (.Value (.Int 1)) (.Value (.Int 2)) (.Value (.Int 3))
    (.Value (.Int 1)) (.Value (.Int 2)) (.Value (.Int 3)) rfl rfl rfl

/-- C2: the instruction counter is structural: a sequence counts the sum of
its children's counts (`0` when empty); the `loop`/`hash`/`sign-check`
wrappers count `1` plus their children; every leaf (literal, load, store,
vector-empty, jump, conditional branch) counts exactly `1`.  The counter is
the Rust `u16` function, so sums and the `1 + _` are `u16` arithmetic,
i.e. taken modulo `2^16` (see the C10 theorem). -/
theorem C2_counter_structural :
    (count_insts (.Seq []) = 0)
    ∧ (∀ es : List MelExpr, count_insts (.Seq es) = (es.map count_insts).sum % 65536)
    ∧ (∀ (n : Nat) (e : MelExpr), count_insts (.Loop n e) = (1 + count_insts e) % 65536)
    ∧ (∀ (n : Nat) (e : MelExpr), count_insts (.Hash n e) = (1 + count_insts e) % 65536)
    ∧ (∀ (n : Nat) (e1 e2 e3 : MelExpr),
        count_insts (.Sigeok n e1 e2 e3)
          = (1 + count_insts e1 + count_insts e2 + count_insts e3) % 65536)
    ∧ (∀ v : Value, count_insts (.Value v) = 1)
    ∧ (∀ idx : HeapPos, count_insts (.BuiltIn (.Load idx)) = 1)
    ∧ (∀ idx : HeapPos, count_insts (.BuiltIn (.Store idx)) = 1)
    ∧ (count_insts (.BuiltIn .Vempty) = 1)
    ∧ (∀ n : Nat, count_insts (.BuiltIn (.Jmp n)) = 1)
    ∧ (∀ n : Nat, count_insts (.BuiltIn (.Bez n)) = 1)
    ∧ (∀ n : Nat, count_insts (.BuiltIn (.Bnz n)) = 1) := by
  refine ⟨rfl, ?_, fun n e => rfl, fun n e => rfl, fun n e1 e2 e3 => rfl,
          fun v => by cases v <;> rfl, fun idx => rfl, fun idx => rfl, rfl,
          fun n => rfl, fun n => rfl, fun n => rfl⟩
  intro es
  show count_seq es = _
  rw [count_seq_eq, sum_counts_mod]

/-- C3: the instruction counter agrees with the number of instructions the
Encoder emits, for every variant of the lowered form: in the counter's
16-bit width unconditionally, and on the nose whenever the emitted length
fits in 16 bits.  The Encoder is modelled from the spec (`compiler.rs` is
not under `src/`). -/
theorem C3_counter_matches_encoder :
    (∀ e : MelExpr, count_insts e = (encode e).length % 65536)
    ∧ (∀ e : MelExpr, (encode e).length < 65536 → count_insts e = (encode e).length) := by
  constructor
  · intro e
    rw [count_insts_eq, trueCount_encode]
  · intro e h
    rw [count_insts_eq, trueCount_encode, Nat.mod_eq_of_lt h]

/-- Witness for C3 at a concrete node: a three-instruction addition tree. -/
theorem C3_counter_matches_encoder_witness :
    count_insts (.BuiltIn (.Add (.Value (.Int 1)) (.Value (.Int 2))))
      = (encode (.BuiltIn (.Add (.Value (.Int 1)) (.Value (.Int 2))))).length :=
  C3_counter_matches_encoder.2 (.BuiltIn (.Add (.Value (.Int 1)) (.Value (.Int 2)))) (by decide)

/-- C4 counterexample: the claim "no two distinct live variable identifiers
are ever mapped to the same heap slot" fails as stated.  In the single
lowering run of `let ([x0 := 1] [x65536 := 2]) x0` both identifiers are live
in the body, yet the final memory map sends both `0` and `65536` to heap
slot `0`, because the allocator takes the identifier modulo `2^16`
(`var_id as HeapPos`). -/
theorem C4_memory_map_aliasing_counterexample :
    lowerMapAt (.Let [(0, .Value (.Int 1)), (65536, .Value (.Int 2))] [.Var 0]) 0
      = some (some 0)
    ∧ lowerMapAt (.Let [(0, .Value (.Int 1)), (65536, .Value (.Int 2))] [.Var 0]) 65536
      = some (some 0)
    ∧ (0 : VarId) ≠ 65536 :=
  ⟨rfl, rfl, by decide⟩

/-- C4 amended: throughout any single lowering run started from a canonical
map (in particular from the empty map `MemoryMap::new`), (1) once an entry
exists for an identifier it never changes, and every entry holds the slot
computed from its identifier; and (2) two live identifiers are mapped to the
same heap slot only when their canonical slots coincide, i.e. only when the
identifiers are congruent modulo `2^16` — identifiers with distinct low 16
bits never alias. -/
theorem C4_memory_map_invariants
    (m : MemoryMap) (e : UnrolledExpr) (r : MelExpr) (m2 : MemoryMap)
    (hC : Canonical m) (h : to_mel_expr m e = .ok (r, m2)) :
    (∀ v l, m v = some l → m2 v = some l)
    ∧ Canonical m2
    ∧ (∀ v1 v2 l, m2 v1 = some l → m2 v2 = some l → slotOf v1 = slotOf v2) := by
  have hev := tme_evolves m e r m2 h
  have hC2 := mapEvolves_canonical hC hev
  refine ⟨fun v l hv => mapEvolves_preserves_entry hC hev hv, hC2, ?_⟩
  intro v1 v2 l h1 h2
  rw [← hC2 v1 l h1, ← hC2 v2 l h2]

/-- Witness for C4 at a concrete run: starting from the canonical map
`{5 ↦ 5}`, lowering a literal leaves the entry for `5` unchanged. -/
theorem C4_memory_map_invariants_witness :
    ((to_mel_expr (MemoryMap.new.insert 5 5) (.Value (.Int 0))).toOption.map
      (fun p => p.2 5)) = some (some 5) := by
  obtain ⟨r, m2, h⟩ :
      ∃ r m2, to_mel_expr (MemoryMap.new.insert 5 5) (.Value (.Int 0)) = .ok (r, m2) :=
    ⟨_, _, rfl⟩
  have hC : Canonical (MemoryMap.new.insert 5 5) := by
    intro v l hv
    by_cases h5 : v = 5
    · subst h5
      simp [MemoryMap.insert, MemoryMap.new] at hv
      simp [← hv, slotOf]
    · simp [MemoryMap.insert, MemoryMap.new, h5] at hv
  have h4 := C4_memory_map_invariants (MemoryMap.new.insert 5 5) (.Value (.Int 0)) r m2 hC h
  have h5 : m2 5 = some 5 := h4.1 5 5 (by simp [MemoryMap.insert, MemoryMap.new])
  rw [h]
  show some ((r, m2).2 5) = some (some 5)
  rw [show (r, m2).2 5 = m2 5 from rfl, h5]

/-- C5: the code, at a variable read (or set) whose identifier is absent
from the memory map, panics through `expect` — an uncontrolled abort — and
does not return a typed `UnboundVariable` error value to its caller as the
claim (and spec sections 7 and 9) require.  This theorem evaluates the
embedded lowering at the failing inputs: the `expect` panic sites are
reached (embedded as `Panic` outcomes). -/
theorem C5_unbound_variable_panics :
    to_mel_expr MemoryMap.new (.Var 0) = .error .expectVarMapping
    ∧ to_mel_expr MemoryMap.new (.Set 0 (.Value (.Int 1))) = .error .expectSetMapping :=
  ⟨rfl, rfl⟩

/-- C6 counterexample: the claim that each binding of a `let` allocates a
"fresh" heap slot fails as stated.  Lowering `let ([x1 := 10] [x65537 := 20])
x1` emits a heap-store at slot `1` for both bindings — the second binding's
slot is the slot already allocated to the still-live identifier `1`, because
the slot is the identifier reduced modulo `2^16`. -/
theorem C6_let_fresh_slot_counterexample :
    lowerResult (.Let [(1, .Value (.Int 10)), (65537, .Value (.Int 20))] [.Var 1])
      = .ok (.Seq [.Value (.Int 10), .BuiltIn (.Store 1),
                   .Value (.Int 20), .BuiltIn (.Store 1),
                   .BuiltIn (.Load 1)])
    ∧ lowerMapAt (.Let [(1, .Value (.Int 10)), (65537, .Value (.Int 20))] [.Var 1]) 1
      = some (some 1)
    ∧ lowerMapAt (.Let [(1, .Value (.Int 10)), (65537, .Value (.Int 20))] [.Var 1]) 65537
      = some (some 1)
    ∧ (1 : VarId) ≠ 65537 :=
  ⟨rfl, rfl, rfl, by decide⟩

/-- C6 amended: for every let-expression, lowering processes the bindings in
left-to-right order; each binding records in the Memory Map the heap slot
obtained from its identifier reduced modulo `2^16` (fresh only when no other
live identifier shares that 16-bit residue), lowers the binding expression
under the extended map, and appends a heap-store at that slot; after all
bindings each body expression is lowered in sequence and every result is
kept (nothing is discarded). -/
theorem C6_let_lowering_shape :
    (∀ (m : MemoryMap) (binds : List (VarId × UnrolledExpr)) (exprs : List UnrolledExpr)
       (bs : List MelExpr) (m1 : MemoryMap) (es : List MelExpr) (m2 : MemoryMap),
       lower_binds m binds = .ok (bs, m1) → lower_body m1 exprs = .ok (es, m2) →
       to_mel_expr m (.Let binds exprs) = .ok (.Seq (bs ++ es), m2))
    ∧ (∀ m : MemoryMap, lower_binds m [] = .ok ([], m))
    ∧ (∀ (m : MemoryMap) (v : VarId) (e : UnrolledExpr)
        (rest : List (VarId × UnrolledExpr)) (e1 : MelExpr) (m2 : MemoryMap)
        (rest1 : List MelExpr) (m3 : MemoryMap),
       to_mel_expr (m.insert v (slotOf v)) e = .ok (e1, m2) →
       lower_binds m2 rest = .ok (rest1, m3) →
       lower_binds m ((v, e) :: rest)
         = .ok (e1 :: .BuiltIn (.Store (slotOf v)) :: rest1, m3))
    ∧ (∀ m : MemoryMap, lower_body m [] = .ok ([], m))
    ∧ (∀ (m : MemoryMap) (e : UnrolledExpr) (es : List UnrolledExpr)
        (e1 : MelExpr) (m1 : MemoryMap) (es1 : List MelExpr) (m2 : MemoryMap),
       to_mel_expr m e = .ok (e1, m1) → lower_body m1 es = .ok (es1, m2) →
       lower_body m (e :: es) = .ok (e1 :: es1, m2)) := by
  refine ⟨?_, fun m => rfl, ?_, fun m => rfl, ?_⟩
  · intro m binds exprs bs m1 es m2 h1 h2
    simp only [to_mel_expr, h1, h2, Bind.bind, Except.bind]
  · intro m v e rest e1 m2 rest1 m3 h1 h2
    simp only [lower_binds, h1, h2, Bind.bind, Except.bind]
  · intro m e es e1 m1 es1 m2 h1 h2
    simp only [lower_body, h1, h2, Bind.bind, Except.bind]

/-- Witness for C6 at a concrete let-expression with one binding and a
two-expression body: both body results are kept. -/
theorem C6_let_lowering_shape_witness :
    to_mel_expr MemoryMap.new (.Let [(3, .Value (.Int 7))] [.Var 3, .Value (.Int 9)])
      = .ok (.Seq [.Value (.Int 7), .BuiltIn (.Store 3),
                   .BuiltIn (.Load 3), .Value (.Int 9)],
             MemoryMap.new.insert 3 3) :=
  C6_let_lowering_shape.1 MemoryMap.new [(3, .Value (.Int 7))] [.Var 3, .Value (.Int 9)]
    [.Value (.Int 7), .BuiltIn (.Store 3)] (MemoryMap.new.insert 3 3)
    [.BuiltIn (.Load 3), .Value (.Int 9)] (MemoryMap.new.insert 3 3) rfl rfl

/-- C7: a loop-expression lowers its body exactly once and wraps it in one
native repeat instruction carrying the count, so the lowered body occurs
once regardless of the count, and the instruction count of the lowered loop
is `1` plus the count of the lowered body (in the counter's 16-bit
arithmetic; see the C10 theorem). -/
theorem C7_loop_lowering
    (m m1 : MemoryMap) (n : Nat) (body : UnrolledExpr) (mel_body : MelExpr)
    (h : to_mel_expr m body = .ok (mel_body, m1)) :
    to_mel_expr m (.Loop n body) = .ok (.Loop n mel_body, m1)
    ∧ count_insts (.Loop n mel_body) = (1 + count_insts mel_body) % 65536 := by
  constructor
  · simp only [to_mel_expr, h, Bind.bind, Except.bind]
  · rfl

/-- Witness for C7 at a concrete loop of count 4 over a literal body. -/
theorem C7_loop_lowering_witness :
    to_mel_expr MemoryMap.new (.Loop 4 (.Value (.Int 7)))
      = .ok (.Loop 4 (.Value (.Int 7)), MemoryMap.new)
    ∧ count_insts (.Loop 4 (.Value (.Int 7))) = 2 :=
  C7_loop_lowering MemoryMap.new MemoryMap.new 4 (.Value (.Int 7)) (.Value (.Int 7)) rfl

/-- C8: lowering a literal value (integer or byte string) is the identity:
the lowered form is the same literal, and the memory map is untouched. -/
theorem C8_literal_identity (m : MemoryMap) (v : Value) :
    to_mel_expr m (.Value v) = .ok (.Value v, m) := by
  cases v <;> rfl

/-- C9: lowering is not total: a built-in application node carrying a
`Vslice`, `Bez`, `Bnz`, `Jmp`, `Loop`, `Load` or `Store` variant — all legal
values of the public input type — reaches the `unreachable` panic arm
instead of producing a lowered expression or one of the `expect` faults. -/
theorem C9_unreachable_builtins :
    to_mel_expr MemoryMap.new
        (.BuiltIn (.Vslice (.Value (.Int 0)) (.Value (.Int 0)) (.Value (.Int 0))))
      = .error .unreachableBuiltin
    ∧ to_mel_expr MemoryMap.new (.BuiltIn (.Bez 0)) = .error .unreachableBuiltin
    ∧ to_mel_expr MemoryMap.new (.BuiltIn (.Bnz 0)) = .error .unreachableBuiltin
    ∧ to_mel_expr MemoryMap.new (.BuiltIn (.Jmp 0)) = .error .unreachableBuiltin
    ∧ to_mel_expr MemoryMap.new (.BuiltIn (.Loop 1 (.Value (.Int 0))))
      = .error .unreachableBuiltin
    ∧ to_mel_expr MemoryMap.new (.BuiltIn (.Load 0)) = .error .unreachableBuiltin
    ∧ to_mel_expr MemoryMap.new (.BuiltIn (.Store 0)) = .error .unreachableBuiltin :=
  ⟨rfl, rfl, rfl, rfl, rfl, rfl, rfl⟩

/-- C10: all instruction counts, heap slots and jump offsets live in 16-bit
unsigned arithmetic: the counter's value is below `2^16` and equals the true
count reduced modulo `2^16`; a binding's heap slot is the identifier (an
`i32`) truncated to 16 bits — Euclidean remainder modulo `2^16`, so
identifiers outside `[0, 2^16)` (such as `65536`, `-1`, `70000`) silently
wrap instead of producing an error; and the if-expression's branch offset is
the 16-bit count of the lowered true branch plus one, again modulo `2^16`. -/
theorem C10_sixteen_bit_arithmetic :
    (∀ e : MelExpr, count_insts e < 65536)
    ∧ (∀ e : MelExpr, count_insts e = trueCount e % 65536)
    ∧ (∀ (m : MemoryMap) (v : VarId),
        to_mel_expr m (.Let [(v, .Value (.Int 0))] [])
          = .ok (.Seq [.Value (.Int 0), .BuiltIn (.Store (slotOf v))],
                 m.insert v (slotOf v)))
    ∧ (∀ v : VarId, slotOf v = (v % 65536).toNat)
    ∧ (slotOf 65536 = 0 ∧ slotOf (-1) = 65535 ∧ slotOf 70000 = 4464)
    ∧ (∀ (m m1 m2 m3 : MemoryMap) (pred on_true on_false : UnrolledExpr)
         (mel_pred mel_true mel_false : MelExpr),
        to_mel_expr m on_true = .ok (mel_true, m1) →
        to_mel_expr m1 on_false = .ok (mel_false, m2) →
        to_mel_expr m2 pred = .ok (mel_pred, m3) →
        to_mel_expr m (.If pred on_true on_false)
          = .ok (.Seq [mel_pred,
                       .BuiltIn (.Bez ((count_insts mel_true + 1) % 65536)),
                       mel_true,
                       .BuiltIn (.Jmp (count_insts mel_false)),
                       mel_false], m3)) := by
  refine ⟨count_insts_lt, count_insts_eq, fun m v => rfl, fun v => rfl,
          ⟨by decide, by decide, by decide⟩, ?_⟩
  intro m m1 m2 m3 pred on_true on_false mel_pred mel_true mel_false h1 h2 h3
  simp only [to_mel_expr, h1, h2, h3, Bind.bind, Except.bind]

/-- Witness for C10 at a concrete if-expression (offsets 2 and 1, computed
in 16-bit arithmetic). -/
theorem C10_sixteen_bit_arithmetic_witness :
    to_mel_expr MemoryMap.new (.If (.Value (.Int 0)) (.Value (.Int 4)) (.Value (.Int 5))) =
      .ok (.Seq [.Value (.Int 0), .BuiltIn (.Bez 2), .Value (.Int 4),
                 .BuiltIn (.Jmp 1), .Value (.Int 5)], MemoryMap.new) :=
  C10_sixteen_bit_arithmetic.2.2.2.2.2 MemoryMap.new MemoryMap.new MemoryMap.new MemoryMap.new
    (.Value (.Int 0)) (.Value (.Int 4)) (.Value (.Int 5))
    (.Value (.Int 0)) (.Value (.Int 4)) (.Value (.Int 5)) rfl rfl rfl
